import Mathlib

/-!
# Verification of the DFloat11 decode-and-attach subsystem

A shallow embedding of `inference_precompile_v2.py`: the per-device
buffer-reuse allocator (`TensorManager.get_tensor`), the kernel launch
geometry (`blocks_per_grid`, `shared_mem_size`), the decode forward-pre-hook
(`decode_hook`), the module-tree rewrite (`load_and_replace_tensors`,
embedded as `process_tensor` / `attach_leaf` / `resolve_weight_target`),
the placement advisor (`get_no_split_classes`) and the device-placement
step of `DFloat11Model.from_pretrained` (`device_placement`).

Modelling conventions (stated once, used throughout):
* tensors are records of a shape, flat element data and a device string;
  the external tensor runtime is out of scope, so a tensor's element count
  is the length of its flattened data;
* a live allocation is identified by a numeric id drawn from a counter, so
  that "the backing allocation's identity changed" is expressible;
* a compiled regular expression is embedded by its denotation, a decidable
  predicate `String → Bool`; `re.fullmatch(pattern, s)` is `pattern s`;
* Python dictionaries in mapping order are association lists;
* Python float division inside `int(math.ceil(n / d))` is modelled as
  exact rational division;
* raising an exception is `Except.error` with the exception's name;
* a module is its kind (Linear, Embedding or other), its named submodules,
  parameters and buffers, its native `weight` slot, the number of
  registered forward-pre-hooks, and the `split_positions`,
  `shared_mem_size` and `weight_injection_modules` attributes the rewrite
  may set; attribute reads on a missing attribute raise `AttributeError`,
  and assigning a plain tensor to a name still registered as a parameter
  raises `TypeError` (`nn.Module.__setattr__`).
-/

namespace DF11

/-! ## Tensors, views and the buffer pool (`TensorManager`) -/

/-- A host/GPU tensor: shape metadata, flattened element data, device. -/
structure Tensor where
  shape : List Nat
  data : List Nat
  device : String
  deriving DecidableEq

/-- `numel()` of a tensor: the number of elements of its flat data. -/
def Tensor.numel (t : Tensor) : Nat := t.data.length

/-- A zero-copy view into a pooled allocation: which allocation, the start
offset and the element count. `buf[:n]` is `⟨buf.id, 0, n⟩`. -/
structure View where
  bufId : Nat
  off : Nat
  len : Nat
  deriving DecidableEq

/-- A pooled allocation: its identity, capacity in elements and dtype. -/
structure Buf where
  id : Nat
  cap : Nat
  dtype : String
  deriving DecidableEq

/-- `TensorManager._tensors` plus a counter that mints allocation ids. -/
structure Pool where
  entries : List (String × Buf)
  nextId : Nat
  deriving DecidableEq

/-- First-match association-list lookup (a Python dict read). -/
def alookup {α : Type} : List (String × α) → String → Option α
  | [], _ => none
  | (k', v) :: rest, k => if k' = k then some v else alookup rest k

/-- Association-list update (a Python dict write): replaces the first
binding of the key, or appends a new binding. -/
def updAssoc {α : Type} : List (String × α) → String → α → List (String × α)
  | [], k, v => [(k, v)]
  | (k', v') :: rest, k, v =>
      if k' = k then (k, v) :: rest else (k', v') :: updAssoc rest k v

/-- `TensorManager.get_tensor(device, n_elements)`: if the device has a
pooled tensor of capacity at least `n`, return the slice `[:n]` of it and
leave the pool alone; otherwise drop the old entry (if any) and allocate a
fresh bfloat16 tensor of exactly `n` elements, store it and return it. -/
def get_tensor (p : Pool) (device : String) (n : Nat) : View × Pool :=
  match alookup p.entries device with
  | some b =>
      if n ≤ b.cap then
        (⟨b.id, 0, n⟩, p)
      else
        (⟨p.nextId, 0, n⟩,
         ⟨updAssoc p.entries device ⟨p.nextId, n, "bfloat16"⟩, p.nextId + 1⟩)
  | none =>
      (⟨p.nextId, 0, n⟩,
       ⟨updAssoc p.entries device ⟨p.nextId, n, "bfloat16"⟩, p.nextId + 1⟩)

/-- Pool sanity: every pooled tensor was made by `get_tensor` (bfloat16,
id below the counter) and devices are not repeated. -/
def PoolWF (p : Pool) : Prop :=
  (∀ e ∈ p.entries, e.2.dtype = "bfloat16" ∧ e.2.id < p.nextId) ∧
  (p.entries.map Prod.fst).Nodup

instance (p : Pool) : Decidable (PoolWF p) := by
  unfold PoolWF; infer_instance

/-! ## Launch geometry (`get_hook` line 122, `load_and_replace_tensors`
lines 252-259) -/

/-- `blocks_per_grid = int(math.ceil(n_bytes / (threads_per_block[0] *
bytes_per_thread)))`, the float division modelled as exact rational
division. -/
def blocks_per_grid (n_bytes tpb bpt : Nat) : Nat :=
  ⌈(n_bytes : ℚ) / ((tpb : ℚ) * (bpt : ℚ))⌉₊

/-- `arr[1:] - arr[:-1]` on the positions viewed as uint32: consecutive
differences with 32-bit wraparound. -/
def u32_diffs : List Nat → List Nat
  | a :: b :: rest =>
      ((b % 2 ^ 32 + 2 ^ 32 - a % 2 ^ 32) % 2 ^ 32) :: u32_diffs (b :: rest)
  | _ => []

/-- `threads_per_block[0] * 4 + 4 + (diffs).max().item() * 2`; `none` when
the difference array is empty, where numpy's `max` raises `ValueError`. -/
def shared_mem_size (tpb : Nat) (positions : List Nat) : Option Nat :=
  match (u32_diffs positions).max? with
  | none => none
  | some m => some (tpb * 4 + 4 + m * 2)

end DF11

namespace DF11

/-! ## The module tree -/

/-- The module kinds the rewrite and the hook distinguish
(`isinstance(module, nn.Linear)`, `nn.Embedding`, anything else). -/
inductive MKind where
  | linear
  | embedding
  | other
  deriving DecidableEq

/-- What the `weight` attribute of a module holds: a native dense tensor,
or a view of the decode buffer installed by the hook. -/
inductive WVal where
  | native (t : Tensor)
  | view (v : View)
  deriving DecidableEq

/-- A module: kind, named submodules, named parameters, named buffers, the
`weight` slot (`none` once `delattr(module, 'weight')` has run), the count
of registered forward-pre-hooks, and the `split_positions`,
`shared_mem_size` and `weight_injection_modules` attributes (`none` =
attribute absent; injected submodules are recorded by their attribute
paths). The native `weight` of a decode-target layer is a dedicated slot
because the rewrite and the hook manipulate it specially; any other named
parameter lives in `params`. -/
inductive Module where
  | mk (kind : MKind)
       (children : List (String × Module))
       (params : List (String × Tensor))
       (buffers : List (String × Tensor))
       (weight : Option WVal)
       (hooks : Nat)
       (split_positions : Option (List Nat))
       (shared_mem : Option Nat)
       (weight_injection : Option (List (List String)))

def Module.kind : Module → MKind
  | .mk k _ _ _ _ _ _ _ _ => k

def Module.children : Module → List (String × Module)
  | .mk _ c _ _ _ _ _ _ _ => c

def Module.params : Module → List (String × Tensor)
  | .mk _ _ p _ _ _ _ _ _ => p

def Module.buffers : Module → List (String × Tensor)
  | .mk _ _ _ b _ _ _ _ _ => b

def Module.weight : Module → Option WVal
  | .mk _ _ _ _ w _ _ _ _ => w

def Module.hooks : Module → Nat
  | .mk _ _ _ _ _ h _ _ _ => h

def Module.split_positions : Module → Option (List Nat)
  | .mk _ _ _ _ _ _ s _ _ => s

def Module.shared_mem : Module → Option Nat
  | .mk _ _ _ _ _ _ _ s _ => s

def Module.weight_injection : Module → Option (List (List String))
  | .mk _ _ _ _ _ _ _ _ w => w

def Module.setWeight : Module → Option WVal → Module
  | .mk k c p b _ h sp sm wi, w => .mk k c p b w h sp sm wi

def Module.addHook : Module → Module
  | .mk k c p b w h sp sm wi => .mk k c p b w (h + 1) sp sm wi

def Module.setSplitPositions : Module → Option (List Nat) → Module
  | .mk k c p b w h _ sm wi, sp => .mk k c p b w h sp sm wi

def Module.setSharedMem : Module → Option Nat → Module
  | .mk k c p b w h sp _ wi, sm => .mk k c p b w h sp sm wi

def Module.setWeightInjection : Module → Option (List (List String)) → Module
  | .mk k c p b w h sp sm _, wi => .mk k c p b w h sp sm wi

/-- `module.weight_injection_modules.append(target)`, the target recorded
by its attribute path. -/
def Module.appendWeightInjection (m : Module) (path : List String) : Module :=
  m.setWeightInjection (some ((m.weight_injection.getD []) ++ [path]))

/-- `module.register_buffer(name, tensor)`. -/
def Module.registerBuffer : Module → String → Tensor → Module
  | .mk k c p b w h sp sm wi, nm, t => .mk k c p (updAssoc b nm t) w h sp sm wi

/-- Buffer read through attribute access (`module.sign_mantissa`, ...). -/
def Module.getBuffer (m : Module) (nm : String) : Option Tensor :=
  alookup m.buffers nm

/-- `getattr(module, part)` for a submodule attribute. -/
def Module.getChild (m : Module) (nm : String) : Option Module :=
  alookup m.children nm

def Module.setChild : Module → String → Module → Module
  | .mk k c p b w h sp sm wi, nm, sub => .mk k (updAssoc c nm sub) p b w h sp sm wi

/-- Descend the module tree one attribute at a time (`getattr` chain). -/
def navigate : Module → List String → Option Module
  | m, [] => some m
  | m, part :: rest =>
      match m.getChild part with
      | none => none
      | some c => navigate c rest

/-- Apply a fallible update to the module at a dotted path, rebuilding the
tree; `none` when an attribute on the path is missing. -/
def updateAtPathE (f : Module → Except String Module) :
    Module → List String → Option (Except String Module)
  | m, [] => some (f m)
  | m, part :: rest =>
      match m.getChild part with
      | none => none
      | some c =>
          match updateAtPathE f c rest with
          | none => none
          | some (.error e) => some (.error e)
          | some (.ok c') => some (.ok (m.setChild part c'))

end DF11

namespace DF11

/-! ## The graph rewrite (`load_and_replace_tensors`) -/

/-- `'.'.join(parts)`. -/
def joinDot (parts : List String) : String := String.intercalate "." parts

/-- One entry of `pattern_dict`: a module-path pattern (the denotation of
the regex, see the header) and its list of relative attribute paths. -/
def PatEntry : Type := (String → Bool) × List String

/-- `name.split('.')` on the characters of the string (defined by
structural recursion so that concrete instances compute). -/
def splitDotChars : List Char → List Char → List String
  | [], acc => [String.mk acc.reverse]
  | c :: rest, acc =>
      if c = '.' then String.mk acc.reverse :: splitDotChars rest []
      else splitDotChars rest (c :: acc)

def splitDot (s : String) : List String := splitDotChars s.data []

/-- `tmp = target.weight; delattr(target, 'weight'); del tmp` — reading a
missing `weight` raises `AttributeError`. -/
def delWeightE (m : Module) : Except String Module :=
  match m.weight with
  | some _ => .ok (m.setWeight none)
  | none => .error "AttributeError"

/-- The inner loop of the multi-module branch: for each relative attribute
path, rebind `parts` to its components, descend with unguarded `getattr`,
detach the target's native weight and append the target to
`weight_injection_modules`. Returns the module and the final value of the
(rebound) `parts` variable. -/
def inject_targets : Module → List String → List String →
    Except String (Module × List String)
  | m, parts, [] => .ok (m, parts)
  | m, _, attr :: rest =>
      let ps := splitDot attr
      match updateAtPathE delWeightE m ps with
      | none => .error "AttributeError"
      | some (.error e) => .error e
      | some (.ok m') => inject_targets (m'.appendWeightInjection ps) ps rest

/-- The pattern loop at lines 225-249: for every entry of `pattern_dict`
whose pattern fully matches `'.'.join(parts[:-1])` — there is no break, so
the loop does not stop at the first match — detach the native weight
(Embedding and Linear), or collect `weight_injection_modules` (any other
kind, which also rebinds `parts`). -/
def resolve_weight_target : List PatEntry → List String → Module →
    Except String Module
  | [], _, m => .ok m
  | (pat, attrs) :: rest, parts, m =>
      if pat (joinDot parts.dropLast) then
        match m.kind with
        | .embedding =>
            match m.weight with
            | some _ => resolve_weight_target rest parts (m.setWeight none)
            | none => .error "AttributeError"
        | .linear =>
            match m.weight with
            | some _ => resolve_weight_target rest parts (m.setWeight none)
            | none => .error "AttributeError"
        | .other =>
            match inject_targets (m.setWeightInjection (some [])) parts attrs with
            | .error e => .error e
            | .ok (m', parts') => resolve_weight_target rest parts' m'
      else resolve_weight_target rest parts m

/-- Lines 213-259, on the module the dotted path resolved to: store
`split_positions` as a plain list, or register the tensor as a named
buffer; after an `encoded_exponent` leaf register the decode hook and run
the pattern loop; after an `output_positions` leaf compute and store
`shared_mem_size`, which raises on an empty difference array. -/
def attach_leaf (tpb : Nat) (pats : List PatEntry) (parts : List String)
    (v : Tensor) (m : Module) : Except String Module :=
  let leaf := parts.getLastD ""
  let m1 := if leaf = "split_positions"
            then m.setSplitPositions (some v.data)
            else m.registerBuffer leaf v
  if leaf = "encoded_exponent" then
    resolve_weight_target pats parts m1.addHook
  else if leaf = "output_positions" then
    match m1.getBuffer "output_positions" with
    | none => .error "AttributeError"
    | some t =>
        match shared_mem_size tpb t.data with
        | none => .error "ValueError"
        | some s => .ok (m1.setSharedMem (some s))
  else .ok m1

/-- `tensor_name in model.state_dict()` together with the subsequent
parameter/buffer lookup: descend submodules along `parts[:-1]`, then look
the leaf up among the parameters (`true`) or buffers (`false`). -/
def state_dict_entry : Module → List String → Option (Bool × Tensor)
  | _, [] => none
  | m, [leaf] =>
      match alookup m.params leaf with
      | some t => some (true, t)
      | none =>
          match alookup m.buffers leaf with
          | some t => some (false, t)
          | none => none
  | m, part :: rest =>
      match m.getChild part with
      | none => none
      | some c => state_dict_entry c rest

/-- `param.data.copy_(tensor_value)` / `buffer.copy_(tensor_value)`: the
destination keeps its identity and metadata, its values become the loaded
ones. -/
def copy_dense (isParam : Bool) (leaf : String) (tv : Tensor) (m : Module) :
    Module :=
  if isParam then
    match alookup m.params leaf with
    | some old =>
        match m with
        | .mk k c p b w h sp sm wi =>
            .mk k c (updAssoc p leaf { old with data := tv.data }) b w h sp sm wi
    | none => m
  else
    match alookup m.buffers leaf with
    | some old =>
        match m with
        | .mk k c p b w h sp sm wi =>
            .mk k c p (updAssoc b leaf { old with data := tv.data }) w h sp sm wi
    | none => m

/-- The in-place copy, applied at the destination's path. -/
def dense_update (root : Module) (parts : List String) (isParam : Bool)
    (tv : Tensor) : Module :=
  match updateAtPathE (fun m => .ok (copy_dense isParam (parts.getLastD "") tv m))
      root parts.dropLast with
  | some (.ok r) => r
  | _ => root

def shape_mismatch_msg (name : String) : String :=
  "Shape mismatch for " ++ name

def missing_path_msg (name : String) : String :=
  "Cannot find module path for " ++ name

/-- Lines 182-259, one `(tensor_name, tensor_value)` item: the dense copy
path (shape mismatch prints and leaves the destination alone), or the
guarded descent (a missing intermediate attribute prints and skips the
tensor) followed by `attach_leaf` at the resolved module. Returns the
updated model and the diagnostics printed to stderr. -/
def process_tensor (tpb : Nat) (pats : List PatEntry) (root : Module)
    (name : String) (tv : Tensor) : Except String (Module × List String) :=
  let parts := splitDot name
  match state_dict_entry root parts with
  | some (isParam, dest) =>
      if dest.shape = tv.shape then
        .ok (dense_update root parts isParam tv, [])
      else
        .ok (root, [shape_mismatch_msg name])
  | none =>
      match updateAtPathE (attach_leaf tpb pats parts tv) root parts.dropLast with
      | none => .ok (root, [missing_path_msg name])
      | some (.error e) => .error e
      | some (.ok root') => .ok (root', [])

/-- The loading loop over the named tensors of the shard files, threading
the model and accumulating diagnostics; an uncaught exception aborts the
whole load. -/
def load_tensors (tpb : Nat) (pats : List PatEntry) :
    Module → List String → List (String × Tensor) →
    Except String (Module × List String)
  | root, diags, [] => .ok (root, diags)
  | root, diags, (nm, tv) :: rest =>
      match process_tensor tpb pats root nm tv with
      | .error e => .error e
      | .ok (root', ds) => load_tensors tpb pats root' (diags ++ ds) rest

end DF11

namespace DF11

/-! ## The decode hook (`get_hook` / `decode_hook`) -/

/-- The argument record of one call of the external
`dfloat11_decode_v2.decode` kernel (the black box), with the output
pointer recorded as the view it writes. -/
structure KernelCall where
  n_luts : Nat
  n_bytes : Nat
  n_elements : Nat
  blocks : Nat
  threads : Nat
  shared_mem : Nat
  out_view : View
  deriving DecidableEq

/-- `torch.tensor_split(reconstructed, split_positions)`: the pieces of
the flat view delimited by the split offsets. -/
def split_views_go (v : View) : Nat → List Nat → List View
  | start, [] => [⟨v.bufId, v.off + start, v.len - start⟩]
  | start, s :: rest => ⟨v.bufId, v.off + start, s - start⟩ :: split_views_go v s rest

def split_views (v : View) (sp : List Nat) : List View :=
  split_views_go v 0 sp

/-- `module.weight = tensor` for a plain (non-Parameter) tensor, through
`nn.Module.__setattr__`: while `weight` is still a registered parameter
(the native slot holds a tensor), assigning a plain tensor raises
`TypeError: cannot assign 'torch.Tensor' as parameter 'weight'`; once the
parameter has been detached, the assignment is an ordinary attribute
update. -/
def setWeightTensorE (m : Module) (v : View) : Except String Module :=
  match m.weight with
  | some (.native _) => .error "TypeError"
  | _ => .ok (m.setWeight (some (.view v)))

/-- `for sub_module, weight in zip(module.weight_injection_modules,
weights): sub_module.weight = weight.view(...)`, the targets addressed by
their recorded paths; each assignment goes through `__setattr__`. -/
def assign_split_weights : Module → List (List String × View) →
    Except String Module
  | m, [] => .ok m
  | m, (path, w) :: rest =>
      match updateAtPathE (fun t => setWeightTensorE t w) m path with
      | none => .error "AttributeError"
      | some (.error e) => .error e
      | some (.ok m') => assign_split_weights m' rest

/-- Propagate a weight-assignment result into the hook's return value
(an uncaught exception, or the kernel call with the updated module). -/
def finish_split (call : KernelCall) (p2 : Pool) :
    Except String Module → Except String (KernelCall × Module × Pool)
  | .error e => .error e
  | .ok m2 => .ok (call, m2, p2)

/-- The forward-pre-hook `decode_hook(module, _)`: read the sizes from the
attached buffers, obtain the reuse buffer from the pool, compute the grid
dimension, launch the kernel (recorded as a `KernelCall`; its shared-memory
argument is `module.shared_mem_size`, read back, never recomputed), and
install the reconstructed view as the weight of the module (Linear,
Embedding) or of its `weight_injection_modules` (split at
`split_positions`); every weight assignment goes through `__setattr__`
(`setWeightTensorE`), so it raises `TypeError` on a weight that is still
a registered parameter. The `.view(out, in)` reshape is a metadata
operation on the same storage and is not tracked. -/
def decode_hook (tpb bpt : Nat) (m : Module) (pool : Pool) :
    Except String (KernelCall × Module × Pool) :=
  match m.getBuffer "sign_mantissa" with
  | none => .error "AttributeError"
  | some sm =>
  match m.getBuffer "encoded_exponent" with
  | none => .error "AttributeError"
  | some ee =>
  match m.getBuffer "luts" with
  | none => .error "AttributeError"
  | some luts =>
  match luts.shape with
  | [] => .error "IndexError"
  | n_luts :: _ =>
  let n_elements := sm.numel
  let n_bytes := ee.numel
  let rp := get_tensor pool ee.device n_elements
  let blocks := blocks_per_grid n_bytes tpb bpt
  match m.shared_mem with
  | none => .error "AttributeError"
  | some sms =>
  let call : KernelCall := ⟨n_luts, n_bytes, n_elements, blocks, tpb, sms, rp.1⟩
  match m.kind with
  | .linear => finish_split call rp.2 (setWeightTensorE m rp.1)
  | .embedding => finish_split call rp.2 (setWeightTensorE m rp.1)
  | .other =>
      match m.split_positions with
      | none => .error "AttributeError"
      | some sp =>
      match m.weight_injection with
      | none => .error "AttributeError"
      | some paths =>
          finish_split call rp.2
            (assign_split_weights m (paths.zip (split_views rp.1 sp)))

/-! ## The placement advisor (`get_no_split_classes`) -/

/-- The inner loop over `model.named_modules()` (given as the list of
dotted names with the runtime class name of each module): append the class
name of every matching module unless already collected. -/
def add_matched (pat : String → Bool) :
    List (String × String) → List String → List String
  | [], acc => acc
  | (nm, cls) :: rest, acc =>
      if pat nm then
        if cls ∈ acc then add_matched pat rest acc
        else add_matched pat rest (acc ++ [cls])
      else add_matched pat rest acc

def no_split_go : List (String → Bool) → List (String × String) →
    List String → List String
  | [], _, acc => acc
  | pat :: rest, mods, acc => no_split_go rest mods (add_matched pat mods acc)

/-- `get_no_split_classes(model, pattern_dict)` over the model's
`named_modules()` listing and the patterns of `pattern_dict` in mapping
order. -/
def get_no_split_classes (mods : List (String × String))
    (pats : List (String → Bool)) : List String :=
  no_split_go pats mods []

/-! ## Concrete fixtures used by the example theorems and witnesses -/

/-- A pool holding one 5-element bfloat16 buffer on `cuda:0`. -/
def poolEx : Pool := ⟨[("cuda:0", ⟨0, 5, "bfloat16"⟩)], 1⟩

/-- A native dense weight used by the concrete examples. -/
def wEx : Tensor := ⟨[2, 2], [1, 2, 3, 4], "cuda:0"⟩

/-- A bare Linear module with a native weight. -/
def linEx : Module := .mk .linear [] [] [] (some (.native wEx)) 0 none none none

/-- A one-position `output_positions` tensor. -/
def vSingle : Tensor := ⟨[1], [7], "cuda:0"⟩

/-- A four-position `output_positions` tensor. -/
def vQuad : Tensor := ⟨[4], [0, 10, 25, 40], "cuda:0"⟩

/-- A module whose only content is one dense parameter `w` of shape 2. -/
def denseEx : Module :=
  .mk .other [] [("w", ⟨[2], [0, 0], "cpu"⟩)] [] none 0 none none none

/-- The pattern entry matching exactly the path `a`, with no relative
attribute paths. -/
def patA : PatEntry := (fun s => s == "a", [])

/-- A `sign_mantissa` buffer of four elements. -/
def smEx : Tensor := ⟨[4], [1, 2, 3, 4], "cuda:0"⟩

/-- An `encoded_exponent` buffer of eight coded bytes. -/
def eeEx : Tensor := ⟨[8], [1, 1, 1, 1, 1, 1, 1, 1], "cuda:0"⟩

/-- A `luts` tensor with two lookup tables. -/
def lutsEx : Tensor := ⟨[2], [0, 0], "cuda:0"⟩

/-- A Linear module with its native weight still registered, carrying the
`sign_mantissa` and `luts` buffers and a stored shared-memory size, ready
to receive its `encoded_exponent` leaf. -/
def preHookEx : Module :=
  .mk .linear [] [] [("sign_mantissa", smEx), ("luts", lutsEx)]
    (some (.native wEx)) 0 none (some 546) none

/-- `preHookEx` after the rewrite attached `encoded_exponent` with no
matching pattern: the hook is registered, the native weight is kept. -/
def hookEx : Module := (preHookEx.registerBuffer "encoded_exponent" eeEx).addHook

/-! ## The device-placement step of `DFloat11Model.from_pretrained`
(lines 371-379) -/

/-- What the tail of `from_pretrained` does with the model. -/
inductive PlacementAction where
  | toDevice (d : String)
  | autoDispatch
  deriving DecidableEq

/-- Python truthiness of the optional `device` argument. -/
def py_truthy : Option String → Bool
  | none => false
  | some s => s != ""

/-- `if device: model.to(device) else: assert device_map == 'auto'; ...
dispatch_model(...)`: the assertion guards the whole balanced-placement
branch. -/
def device_placement (device : Option String) (device_map : String) :
    Except String PlacementAction :=
  if py_truthy device then .ok (.toDevice (device.getD ""))
  else if device_map = "auto" then .ok .autoDispatch
  else .error "AssertionError"

end DF11

namespace DF11

/-! ## Association-list lemmas -/

theorem alookup_updAssoc_self {α : Type} (l : List (String × α)) (k : String) (v : α) :
    alookup (updAssoc l k v) k = some v := by
  induction l with
  | nil => simp [alookup, updAssoc]
  | cons hd tl ih =>
      obtain ⟨k', v'⟩ := hd
      by_cases h : k' = k
      · simp [updAssoc, alookup, h]
      · simp [updAssoc, alookup, h, ih]

theorem alookup_mem {α : Type} {l : List (String × α)} {k : String} {v : α}
    (h : alookup l k = some v) : (k, v) ∈ l := by
  induction l with
  | nil => simp [alookup] at h
  | cons hd tl ih =>
      obtain ⟨k', v'⟩ := hd
      by_cases hk : k' = k
      · simp [alookup, hk] at h
        simp [hk, h]
      · simp [alookup, hk] at h
        exact List.mem_cons_of_mem _ (ih h)

theorem mem_updAssoc {α : Type} {x : String × α} {l : List (String × α)}
    {k : String} {v : α} (h : x ∈ updAssoc l k v) : x = (k, v) ∨ x ∈ l := by
  induction l with
  | nil => simpa [updAssoc] using h
  | cons hd tl ih =>
      obtain ⟨k', v'⟩ := hd
      by_cases hk : k' = k
      · simp [updAssoc, hk] at h
        rcases h with h | h
        · exact Or.inl h
        · exact Or.inr (List.mem_cons_of_mem _ h)
      · simp [updAssoc, hk] at h
        rcases h with h | h
        · exact Or.inr (by simp [h])
        · rcases ih h with h' | h'
          · exact Or.inl h'
          · exact Or.inr (List.mem_cons_of_mem _ h')

theorem mem_keys_updAssoc {α : Type} {a : String} {l : List (String × α)}
    {k : String} {v : α} (h : a ∈ (updAssoc l k v).map Prod.fst) :
    a = k ∨ a ∈ l.map Prod.fst := by
  simp only [List.mem_map] at h
  obtain ⟨x, hx, rfl⟩ := h
  rcases mem_updAssoc hx with h' | h'
  · exact Or.inl (by simp [h'])
  · exact Or.inr (List.mem_map_of_mem _ h')

theorem nodup_keys_updAssoc {α : Type} {l : List (String × α)}
    (hn : (l.map Prod.fst).Nodup) (k : String) (v : α) :
    ((updAssoc l k v).map Prod.fst).Nodup := by
  induction l with
  | nil => simp [updAssoc]
  | cons hd tl ih =>
      obtain ⟨k', v'⟩ := hd
      simp only [List.map_cons, List.nodup_cons] at hn
      by_cases hk : k' = k
      · subst hk
        simpa [updAssoc] using hn
      · simp only [updAssoc, hk, if_false, List.map_cons, List.nodup_cons]
        refine ⟨?_, ih hn.2⟩
        intro hmem
        rcases mem_keys_updAssoc hmem with h' | h'
        · exact hk h'
        · exact hn.1 h'

end DF11

namespace DF11

theorem poolWF_after_alloc (entries : List (String × Buf)) (nid n : Nat)
    (dev : String)
    (h : ∀ e ∈ entries, e.2.dtype = "bfloat16" ∧ e.2.id < nid)
    (hnd : (entries.map Prod.fst).Nodup) :
    PoolWF ⟨updAssoc entries dev ⟨nid, n, "bfloat16"⟩, nid + 1⟩ := by
  refine ⟨?_, ?_⟩
  · intro e he
    rcases mem_updAssoc he with rfl | he'
    · exact ⟨rfl, Nat.lt_succ_self nid⟩
    · exact ⟨(h e he').1, Nat.lt_succ_of_lt (h e he').2⟩
  · exact nodup_keys_updAssoc hnd dev _

/-- C2: `get_tensor(device, n)` returns a 16-bit-float (bfloat16) buffer
view of exactly `n` elements on that device. If the pooled buffer for the
device has capacity at least `n`, the view is a zero-copy prefix of that
buffer and the pool is unchanged; otherwise the old buffer is dropped and
a freshly allocated buffer of exactly `n` elements replaces the pool
entry. The backing allocation's identity is unchanged exactly when the
requested size does not exceed the current capacity. -/
theorem c2_get_tensor_contract (p : Pool) (dev : String) (n : Nat)
    (hwf : PoolWF p) :
    (get_tensor p dev n).1.len = n ∧
    (get_tensor p dev n).1.off = 0 ∧
    (∃ b', alookup (get_tensor p dev n).2.entries dev = some b' ∧
        (get_tensor p dev n).1.bufId = b'.id ∧ b'.dtype = "bfloat16" ∧
        n ≤ b'.cap) ∧
    (∀ b, alookup p.entries dev = some b →
        (n ≤ b.cap → get_tensor p dev n = (⟨b.id, 0, n⟩, p)) ∧
        (b.cap < n →
          alookup (get_tensor p dev n).2.entries dev =
            some ⟨p.nextId, n, "bfloat16"⟩ ∧
          (get_tensor p dev n).2.nextId = p.nextId + 1) ∧
        ((alookup (get_tensor p dev n).2.entries dev).map Buf.id = some b.id ↔
          n ≤ b.cap)) ∧
    (alookup p.entries dev = none →
        alookup (get_tensor p dev n).2.entries dev =
          some ⟨p.nextId, n, "bfloat16"⟩) ∧
    PoolWF (get_tensor p dev n).2 := by
  obtain ⟨hbf, hnd⟩ := hwf
  have hlen : (get_tensor p dev n).1.len = n := by
    cases hl : alookup p.entries dev with
    | some b => by_cases hc : n ≤ b.cap <;> simp [get_tensor, hl, hc]
    | none => simp [get_tensor, hl]
  have hoff : (get_tensor p dev n).1.off = 0 := by
    cases hl : alookup p.entries dev with
    | some b => by_cases hc : n ≤ b.cap <;> simp [get_tensor, hl, hc]
    | none => simp [get_tensor, hl]
  have hex : ∃ b', alookup (get_tensor p dev n).2.entries dev = some b' ∧
      (get_tensor p dev n).1.bufId = b'.id ∧ b'.dtype = "bfloat16" ∧
      n ≤ b'.cap := by
    cases hl : alookup p.entries dev with
    | some b =>
        by_cases hc : n ≤ b.cap
        · refine ⟨b, ?_, ?_, (hbf _ (alookup_mem hl)).1, hc⟩ <;>
            simp [get_tensor, hl, hc]
        · refine ⟨⟨p.nextId, n, "bfloat16"⟩, ?_, ?_, rfl, le_refl n⟩ <;>
            simp [get_tensor, hl, hc, alookup_updAssoc_self]
    | none =>
        refine ⟨⟨p.nextId, n, "bfloat16"⟩, ?_, ?_, rfl, le_refl n⟩ <;>
          simp [get_tensor, hl, alookup_updAssoc_self]
  have hsome : ∀ b, alookup p.entries dev = some b →
      (n ≤ b.cap → get_tensor p dev n = (⟨b.id, 0, n⟩, p)) ∧
      (b.cap < n →
        alookup (get_tensor p dev n).2.entries dev =
          some ⟨p.nextId, n, "bfloat16"⟩ ∧
        (get_tensor p dev n).2.nextId = p.nextId + 1) ∧
      ((alookup (get_tensor p dev n).2.entries dev).map Buf.id = some b.id ↔
        n ≤ b.cap) := by
    intro b hb
    have hbid : b.id < p.nextId := (hbf _ (alookup_mem hb)).2
    by_cases hc : n ≤ b.cap
    · refine ⟨fun _ => by simp [get_tensor, hb, hc], fun hlt => absurd hc (by omega), ?_⟩
      simp [get_tensor, hb, hc]
    · refine ⟨fun hle => absurd hle hc, fun _ => ?_, ?_⟩
      · constructor <;> simp [get_tensor, hb, hc, alookup_updAssoc_self]
      · have : ¬ (p.nextId = b.id) := by omega
        simp [get_tensor, hb, hc, alookup_updAssoc_self, this]
  have hnone : alookup p.entries dev = none →
      alookup (get_tensor p dev n).2.entries dev =
        some ⟨p.nextId, n, "bfloat16"⟩ := by
    intro hl
    simp [get_tensor, hl, alookup_updAssoc_self]
  have hwf2 : PoolWF (get_tensor p dev n).2 := by
    cases hl : alookup p.entries dev with
    | some b =>
        by_cases hc : n ≤ b.cap
        · have hgt : (get_tensor p dev n).2 = p := by simp [get_tensor, hl, hc]
          rw [hgt]
          exact ⟨hbf, hnd⟩
        · have hgt : (get_tensor p dev n).2 =
              ⟨updAssoc p.entries dev ⟨p.nextId, n, "bfloat16"⟩, p.nextId + 1⟩ := by
            simp [get_tensor, hl, hc]
          rw [hgt]
          exact poolWF_after_alloc p.entries p.nextId n dev hbf hnd
    | none =>
        have hgt : (get_tensor p dev n).2 =
            ⟨updAssoc p.entries dev ⟨p.nextId, n, "bfloat16"⟩, p.nextId + 1⟩ := by
          simp [get_tensor, hl]
        rw [hgt]
        exact poolWF_after_alloc p.entries p.nextId n dev hbf hnd
  exact ⟨hlen, hoff, hex, hsome, hnone, hwf2⟩

/-- C2 witness: a pool holding a 5-element buffer on `cuda:0` serves a
3-element request as a slice of the same allocation. -/
theorem c2_get_tensor_contract_witness :
    PoolWF poolEx ∧
    (get_tensor poolEx "cuda:0" 3).1.len = 3 ∧
    get_tensor poolEx "cuda:0" 3 = (⟨0, 0, 3⟩, poolEx) := by
  have h := c2_get_tensor_contract poolEx "cuda:0" 3 (by decide)
  refine ⟨by decide, h.1, ?_⟩
  exact (h.2.2.2.1 ⟨0, 5, "bfloat16"⟩ rfl).1 (by decide)

end DF11

namespace DF11

theorem nat_ceil_div_eq (n d : Nat) (hd : 0 < d) :
    ⌈(n : ℚ) / (d : ℚ)⌉₊ = (n + d - 1) / d := by
  have hdq : (0 : ℚ) < (d : ℚ) := by exact_mod_cast hd
  have key : ∀ c : Nat, ⌈(n : ℚ) / (d : ℚ)⌉₊ ≤ c ↔ n ≤ c * d := by
    intro c
    rw [Nat.ceil_le, div_le_iff₀ hdq]
    constructor
    · intro h
      exact_mod_cast h
    · intro h
      exact_mod_cast h
  refine le_antisymm ?_ ?_
  · apply (key _).2
    rw [Nat.mul_comm]
    have h1 := Nat.div_add_mod (n + d - 1) d
    have h2 : (n + d - 1) % d < d := Nat.mod_lt _ hd
    omega
  · rw [Nat.div_le_iff_le_mul_add_pred hd]
    have h3 : n ≤ ⌈(n : ℚ) / (d : ℚ)⌉₊ * d := (key _).1 le_rfl
    rw [Nat.mul_comm] at h3
    omega

theorem ceilDiv_least (n d : Nat) (hd : 0 < d) :
    n ≤ ((n + d - 1) / d) * d ∧ ∀ m, n ≤ m * d → (n + d - 1) / d ≤ m := by
  constructor
  · rw [Nat.mul_comm]
    have h1 := Nat.div_add_mod (n + d - 1) d
    have h2 : (n + d - 1) % d < d := Nat.mod_lt _ hd
    omega
  · intro m hm
    rw [Nat.div_le_iff_le_mul_add_pred hd]
    rw [Nat.mul_comm] at hm
    omega

/-- C4: for positive `n_bytes`, `threads_per_block[0]` and
`bytes_per_thread`, the decode hook's grid dimension
`int(math.ceil(n_bytes / (tpb * bpt)))` is the exact integer ceiling of
the division: `n` does not exceed `blocks * (tpb * bpt)`, no smaller
block count covers `n`, and the value equals `(n + tpb * bpt - 1) /
(tpb * bpt)`. -/
theorem c4_blocks_per_grid_ceil (n t b : Nat)
    (hn : 0 < n) (ht : 0 < t) (hb : 0 < b) :
    n ≤ blocks_per_grid n t b * (t * b) ∧
    (∀ m, n ≤ m * (t * b) → blocks_per_grid n t b ≤ m) ∧
    blocks_per_grid n t b = (n + t * b - 1) / (t * b) := by
  have hd : 0 < t * b := Nat.mul_pos ht hb
  have heq : blocks_per_grid n t b = (n + t * b - 1) / (t * b) := by
    rw [blocks_per_grid]
    have hcast : (t : ℚ) * (b : ℚ) = ((t * b : Nat) : ℚ) := by push_cast; ring
    rw [hcast]
    exact nat_ceil_div_eq n (t * b) hd
  refine ⟨?_, ?_, heq⟩
  · rw [heq]
    exact (ceilDiv_least n (t * b) hd).1
  · intro m hm
    rw [heq]
    exact (ceilDiv_least n (t * b) hd).2 m hm

/-- C4 witness: `n_bytes = 1000`, `threads_per_block = 256`,
`bytes_per_thread = 4` gives one block (1000/1024 rounds up to 1). -/
theorem c4_blocks_per_grid_ceil_witness :
    0 < 1000 ∧ 0 < 256 ∧ 0 < 4 ∧ blocks_per_grid 1000 256 4 = 1 := by
  obtain ⟨-, -, h⟩ :=
    c4_blocks_per_grid_ceil 1000 256 4 (by decide) (by decide) (by decide)
  refine ⟨by decide, by decide, by decide, ?_⟩
  rw [h]

end DF11

namespace DF11

theorem u32_diffs_single (a : Nat) : u32_diffs [a] = [] := rfl

theorem shared_mem_size_single (tpb a : Nat) :
    shared_mem_size tpb [a] = none := rfl

theorem getBuffer_registerBuffer_self (m : Module) (nm : String) (v : Tensor) :
    (m.registerBuffer nm v).getBuffer nm = some v := by
  cases m
  simp [Module.registerBuffer, Module.getBuffer, Module.buffers,
    alookup_updAssoc_self]

/-- C10: with no explicit device, `from_pretrained` reaches the
`assert device_map == 'auto'` guard, so any other `device_map` raises
`AssertionError` before any multi-device placement is attempted, while
`device_map = "auto"` proceeds to balanced dispatch; with an explicit
(non-empty) device the model is moved there and the `auto` requirement
is never enforced. -/
theorem c10_device_map_guard :
    (∀ dm, dm ≠ "auto" → device_placement none dm = .error "AssertionError") ∧
    (device_placement none "auto" = .ok .autoDispatch) ∧
    (∀ d dm, d ≠ "" → device_placement (some d) dm = .ok (.toDevice d)) := by
  refine ⟨?_, rfl, ?_⟩
  · intro dm hdm
    simp [device_placement, py_truthy, hdm]
  · intro d dm hd
    have : py_truthy (some d) = true := by
      simp [py_truthy]
      exact hd
    simp [device_placement, this]

/-- C10 witness: `device_map = "balanced"` with no device raises the
assertion; with `device = "cuda:0"` it is accepted. -/
theorem c10_device_map_guard_witness :
    device_placement none "balanced" = .error "AssertionError" ∧
    device_placement (some "cuda:0") "balanced" = .ok (.toDevice "cuda:0") := by
  refine ⟨c10_device_map_guard.1 "balanced" (by decide), ?_⟩
  exact c10_device_map_guard.2.2 "cuda:0" "balanced" (by decide)

/-- C5: the rewrite-time shared-memory-size computation is unguarded for
a single-offset `output_positions` sequence: the consecutive-difference
array is empty, numpy's `max` has no value (`shared_mem_size` is `none`),
and attaching the leaf raises `ValueError` instead of producing a
defined value. -/
theorem c5_single_position_unguarded (tpb : Nat) (pats : List PatEntry)
    (parts : List String) (m : Module) (v : Tensor) (pos : Nat)
    (hdata : v.data = [pos])
    (hleaf : parts.getLastD "" = "output_positions") :
    u32_diffs v.data = [] ∧
    shared_mem_size tpb v.data = none ∧
    attach_leaf tpb pats parts v m = .error "ValueError" := by
  refine ⟨by rw [hdata, u32_diffs_single], by rw [hdata, shared_mem_size_single], ?_⟩
  have hleaf2 : parts.getLast?.getD "" = "output_positions" := by
    simpa [List.getLastD_eq_getLast?] using hleaf
  simp [attach_leaf, hleaf, hleaf2, getBuffer_registerBuffer_self, hdata,
    shared_mem_size_single]

end DF11

namespace DF11

/-- C5 witness: attaching `output_positions = [7]` fails. -/
theorem c5_single_position_unguarded_witness :
    u32_diffs vSingle.data = [] ∧
    shared_mem_size 64 vSingle.data = none ∧
    attach_leaf 64 [] ["layer", "output_positions"] vSingle linEx =
      .error "ValueError" :=
  c5_single_position_unguarded 64 [] ["layer", "output_positions"] linEx
    vSingle 7 rfl rfl

end DF11

namespace DF11

theorem finish_split_ok {call : KernelCall} {p2 : Pool}
    {res : Except String Module} {r : KernelCall × Module × Pool}
    (h : finish_split call p2 res = .ok r) : r.1 = call := by
  cases res with
  | error e => simp [finish_split] at h
  | ok m2 =>
      simp [finish_split] at h
      rw [← h]

theorem hook_shared_passthrough (tpb bpt : Nat) (m2 : Module) (pool : Pool)
    (r : KernelCall × Module × Pool)
    (h : decode_hook tpb bpt m2 pool = .ok r) :
    some r.1.shared_mem = m2.shared_mem := by
  rw [decode_hook] at h
  repeat' split at h
  all_goals try (dsimp only at h)
  all_goals try (injection h with h1; subst h1)
  all_goals try (rw [finish_split_ok h])
  all_goals simp_all

/-- C3: when the `output_positions` leaf is attached at rewrite time, the
module's stored shared-memory size is `threads_per_block[0] * 4 + 4 + 2 *
max(consecutive uint32 difference of the positions)`; the decode hook
passes the stored attribute to the kernel verbatim (for every module
state, whatever the stored value), so the size is computed once at
rewrite time and not per forward pass; for positions `[0, 10, 25, 40]`
and `threads_per_block[0] = 128` the stored value is 546. -/
theorem c3_shared_mem_once (tpb : Nat) (pats : List PatEntry)
    (parts : List String) (v : Tensor) (m : Module) (s : Nat)
    (hleaf : parts.getLastD "" = "output_positions")
    (hs : shared_mem_size tpb v.data = some s) :
    attach_leaf tpb pats parts v m =
      .ok ((m.registerBuffer "output_positions" v).setSharedMem (some s)) ∧
    (∀ bpt m2 pool r, decode_hook tpb bpt m2 pool = .ok r →
        some r.1.shared_mem = m2.shared_mem) ∧
    shared_mem_size 128 [0, 10, 25, 40] = some 546 := by
  refine ⟨?_, fun bpt m2 pool r h => hook_shared_passthrough tpb bpt m2 pool r h, rfl⟩
  have hleaf2 : parts.getLast?.getD "" = "output_positions" := by
    simpa [List.getLastD_eq_getLast?] using hleaf
  simp [attach_leaf, hleaf, hleaf2, getBuffer_registerBuffer_self, hs]

/-- C3 witness: attaching `[0, 10, 25, 40]` with 128 threads per block
stores 546. -/
theorem c3_shared_mem_once_witness :
    attach_leaf 128 [] ["layer", "output_positions"] vQuad linEx =
      .ok ((linEx.registerBuffer "output_positions" vQuad).setSharedMem
        (some 546)) :=
  (c3_shared_mem_once 128 [] ["layer", "output_positions"] vQuad linEx 546
    rfl rfl).1

end DF11

namespace DF11

theorem updateAtPathE_none_iff (f : Module → Except String Module)
    (m : Module) (ps : List String) :
    updateAtPathE f m ps = none ↔ navigate m ps = none := by
  induction ps generalizing m with
  | nil => simp [updateAtPathE, navigate]
  | cons p rest ih =>
      simp only [updateAtPathE, navigate]
      cases hc : m.getChild p with
      | none => simp
      | some c =>
          cases hu : updateAtPathE f c rest with
          | none => simp [hu, (ih c).1 hu]
          | some r =>
              have hnav : ¬ (navigate c rest = none) := by
                intro hn
                rw [(ih c).2 hn] at hu
                cases hu
              cases r <;> simp [hu, hnav]

/-- C6: when a loaded tensor's name exists in the model but its shape
disagrees with the destination parameter or buffer, a diagnostic is
emitted, the whole model (hence the destination) keeps its prior value,
no exception is raised, and the loading loop continues with the
remaining tensors. -/
theorem c6_shape_mismatch_nonfatal (tpb : Nat) (pats : List PatEntry)
    (root : Module) (name : String) (tv : Tensor) (isP : Bool) (dest : Tensor)
    (rest : List (String × Tensor)) (diags : List String)
    (hdest : state_dict_entry root (splitDot name) = some (isP, dest))
    (hshape : dest.shape ≠ tv.shape) :
    process_tensor tpb pats root name tv =
      .ok (root, [shape_mismatch_msg name]) ∧
    load_tensors tpb pats root diags ((name, tv) :: rest) =
      load_tensors tpb pats root (diags ++ [shape_mismatch_msg name]) rest := by
  have h1 : process_tensor tpb pats root name tv =
      .ok (root, [shape_mismatch_msg name]) := by
    simp [process_tensor, hdest, hshape]
  exact ⟨h1, by simp [load_tensors, h1]⟩

/-- C6 witness: loading a shape-`[3]` tensor over a shape-`[2]`
parameter `w` leaves the model unchanged and prints the mismatch. -/
theorem c6_shape_mismatch_nonfatal_witness :
    state_dict_entry denseEx (splitDot "w") =
      some (true, ⟨[2], [0, 0], "cpu"⟩) ∧
    process_tensor 128 [] denseEx "w" ⟨[3], [1, 2, 3], "cpu"⟩ =
      .ok (denseEx, [shape_mismatch_msg "w"]) := by
  refine ⟨rfl, ?_⟩
  exact (c6_shape_mismatch_nonfatal 128 [] denseEx "w" ⟨[3], [1, 2, 3], "cpu"⟩
    true ⟨[2], [0, 0], "cpu"⟩ [] [] rfl (by decide)).1

/-- C7: when an intermediate attribute of a tensor's dotted module path
does not resolve, a diagnostic is emitted and only that tensor's
attachment is aborted — the model is returned unchanged (no buffer
registered, no hook installed, no attribute set) and the loading loop
continues with the remaining tensors. -/
theorem c7_missing_path_skips_tensor (tpb : Nat) (pats : List PatEntry)
    (root : Module) (name : String) (tv : Tensor)
    (rest : List (String × Tensor)) (diags : List String)
    (hsd : state_dict_entry root (splitDot name) = none)
    (hnav : navigate root ((splitDot name).dropLast) = none) :
    process_tensor tpb pats root name tv =
      .ok (root, [missing_path_msg name]) ∧
    load_tensors tpb pats root diags ((name, tv) :: rest) =
      load_tensors tpb pats root (diags ++ [missing_path_msg name]) rest := by
  have hupd : updateAtPathE (attach_leaf tpb pats (splitDot name) tv) root
      ((splitDot name).dropLast) = none :=
    (updateAtPathE_none_iff _ _ _).2 hnav
  have h1 : process_tensor tpb pats root name tv =
      .ok (root, [missing_path_msg name]) := by
    simp [process_tensor, hsd, hupd]
  exact ⟨h1, by simp [load_tensors, h1]⟩

/-- C7 witness: `foo.encoded_exponent` on a module without a `foo`
child is skipped with a diagnostic. -/
theorem c7_missing_path_skips_tensor_witness :
    state_dict_entry linEx (splitDot "foo.encoded_exponent") = none ∧
    navigate linEx ((splitDot "foo.encoded_exponent").dropLast) = none ∧
    process_tensor 128 [] linEx "foo.encoded_exponent" vQuad =
      .ok (linEx, [missing_path_msg "foo.encoded_exponent"]) := by
  refine ⟨rfl, rfl, ?_⟩
  exact (c7_missing_path_skips_tensor 128 [] linEx "foo.encoded_exponent"
    vQuad [] [] rfl rfl).1

end DF11

namespace DF11

theorem mem_add_matched (pat : String → Bool) (ms : List (String × String))
    (acc : List String) (c : String) :
    c ∈ add_matched pat ms acc ↔
      c ∈ acc ∨ ∃ nm, (nm, c) ∈ ms ∧ pat nm = true := by
  induction ms generalizing acc with
  | nil => simp [add_matched]
  | cons hd tl ih =>
      obtain ⟨nm, cls⟩ := hd
      cases hp : pat nm <;> by_cases hc : cls ∈ acc <;>
        simp only [add_matched, hp, hc, if_true, if_false, ite_true, ite_false,
          Bool.false_eq_true, ih] <;> aesop

theorem nodup_add_matched (pat : String → Bool) (ms : List (String × String)) :
    ∀ acc : List String, acc.Nodup → (add_matched pat ms acc).Nodup := by
  induction ms with
  | nil => intro acc h; simpa [add_matched] using h
  | cons hd tl ih =>
      obtain ⟨nm, cls⟩ := hd
      intro acc h
      cases hp : pat nm with
      | false => simpa [add_matched, hp] using ih acc h
      | true =>
          by_cases hc : cls ∈ acc
          · simpa [add_matched, hp, hc] using ih acc h
          · have h2 : (acc ++ [cls]).Nodup := by
              simp [List.nodup_append, h, hc]
            simpa [add_matched, hp, hc] using ih _ h2

theorem mem_no_split_go (mods : List (String × String))
    (pats : List (String → Bool)) :
    ∀ (acc : List String) (c : String),
      c ∈ no_split_go pats mods acc ↔
        c ∈ acc ∨ ∃ p ∈ pats, ∃ nm, (nm, c) ∈ mods ∧ p nm = true := by
  induction pats with
  | nil => simp [no_split_go]
  | cons p rest ih =>
      intro acc c
      rw [no_split_go, ih, mem_add_matched]
      aesop

theorem nodup_no_split_go (mods : List (String × String))
    (pats : List (String → Bool)) :
    ∀ acc : List String, acc.Nodup → (no_split_go pats mods acc).Nodup := by
  induction pats with
  | nil => intro acc h; simpa [no_split_go] using h
  | cons p rest ih =>
      intro acc h
      rw [no_split_go]
      exact ih _ (nodup_add_matched p mods acc h)

/-- C8: `get_no_split_classes(model, pattern_dict)` returns the
deduplicated collection of runtime class names of every module whose
dotted path fully matches some pattern: the result has no duplicates, a
class name is in it exactly when some pattern matches some module of
that class, no error is raised (the function is total), and the result
is empty when no module path matches any pattern. -/
theorem c8_no_split_classes_spec (mods : List (String × String))
    (pats : List (String → Bool)) :
    (get_no_split_classes mods pats).Nodup ∧
    (∀ c, c ∈ get_no_split_classes mods pats ↔
        ∃ p ∈ pats, ∃ nm, (nm, c) ∈ mods ∧ p nm = true) ∧
    ((∀ p ∈ pats, ∀ x ∈ mods, ¬ p x.1 = true) →
        get_no_split_classes mods pats = []) := by
  refine ⟨nodup_no_split_go mods pats [] List.nodup_nil, ?_, ?_⟩
  · intro c
    rw [get_no_split_classes, mem_no_split_go]
    simp
  · intro hno
    refine List.eq_nil_iff_forall_not_mem.2 fun c hc => ?_
    rw [get_no_split_classes, mem_no_split_go] at hc
    rcases hc with hc | ⟨p, hp, nm, hmem, hpat⟩
    · simp at hc
    · exact hno p hp (nm, c) hmem hpat

/-- C8 witness: two decoder-layer instances matching two patterns
yield the class name once. -/
theorem c8_no_split_classes_spec_witness :
    get_no_split_classes
      [("model.layers.0", "LlamaDecoderLayer"),
       ("model.layers.1", "LlamaDecoderLayer")]
      [fun s => s == "model.layers.0", fun s => s == "model.layers.1"] =
      ["LlamaDecoderLayer"] ∧
    (["LlamaDecoderLayer"] : List String).Nodup := by
  constructor
  · rfl
  · have h := (c8_no_split_classes_spec
      [("model.layers.0", "LlamaDecoderLayer"),
       ("model.layers.1", "LlamaDecoderLayer")]
      [fun s => s == "model.layers.0", fun s => s == "model.layers.1"]).1
    simpa using h

end DF11

namespace DF11

theorem Module.kind_setWeight (m : Module) (w : Option WVal) :
    (m.setWeight w).kind = m.kind := by
  cases m
  rfl

theorem Module.weight_setWeight (m : Module) (w : Option WVal) :
    (m.setWeight w).weight = w := by
  cases m
  rfl

/-- A pattern entry that matches no path in the loop leaves the module
alone (and the rebound `parts` untouched). -/
theorem resolve_no_match (pats : List PatEntry) (parts : List String)
    (m : Module)
    (h : ∀ e ∈ pats, e.1 (joinDot parts.dropLast) = false) :
    resolve_weight_target pats parts m = .ok m := by
  induction pats with
  | nil => rfl
  | cons e rest ih =>
      obtain ⟨pat, attrs⟩ := e
      have he : pat (joinDot parts.dropLast) = false :=
        h _ (List.mem_cons_self _ _)
      rw [resolve_weight_target, if_neg (by simp [he])]
      exact ih fun e' he' => h e' (List.mem_cons_of_mem _ he')

/-- Once the native weight is gone, any further matching pattern makes the
loop raise `AttributeError` (Linear and Embedding). -/
theorem resolve_weight_none_error (pats : List PatEntry) (parts : List String)
    (m : Module)
    (hk : m.kind = .linear ∨ m.kind = .embedding)
    (hw : m.weight = none)
    (hmatch : ∃ e ∈ pats, e.1 (joinDot parts.dropLast) = true) :
    resolve_weight_target pats parts m = .error "AttributeError" := by
  induction pats with
  | nil => simp at hmatch
  | cons e rest ih =>
      obtain ⟨pat, attrs⟩ := e
      cases hp : pat (joinDot parts.dropLast) with
      | true =>
          rw [resolve_weight_target, if_pos (by simp [hp])]
          rcases hk with hk | hk <;> simp [hk, hw]
      | false =>
          rw [resolve_weight_target, if_neg (by simp [hp])]
          apply ih
          rcases hmatch with ⟨e', he', hpe⟩
          rcases List.mem_cons.1 he' with heq | hmem
          · exfalso
            rw [heq] at hpe
            dsimp only at hpe
            rw [hp] at hpe
            cases hpe
          · exact ⟨e', hmem, hpe⟩

end DF11

namespace DF11

/-- C1 (amended): the WeightTarget resolution loop matches the module's
dotted path against the patterns of `patternDict` in mapping order and
processes every matching pattern — there is no first-match cut-off.
When exactly one pattern matches a Linear or Embedding module with its
native weight present, the result coincides with first-match semantics
(the weight is detached once); when two or more patterns match, the
later match re-reads the already-deleted weight and the rewrite fails
with `AttributeError`. -/
theorem c1_pattern_loop_all_matches (pats : List PatEntry)
    (parts : List String) (m : Module)
    (hk : m.kind = .linear ∨ m.kind = .embedding)
    (hw : m.weight.isSome = true) :
    (pats.countP (fun e => e.1 (joinDot parts.dropLast)) = 1 →
        resolve_weight_target pats parts m = .ok (m.setWeight none)) ∧
    (2 ≤ pats.countP (fun e => e.1 (joinDot parts.dropLast)) →
        resolve_weight_target pats parts m = .error "AttributeError") := by
  obtain ⟨w, hw'⟩ := Option.isSome_iff_exists.1 hw
  constructor
  · intro h1
    induction pats with
    | nil => simp at h1
    | cons e rest ih =>
        obtain ⟨pat, attrs⟩ := e
        rw [List.countP_cons] at h1
        cases hp : pat (joinDot parts.dropLast) with
        | true =>
            rw [resolve_weight_target, if_pos (by simp [hp])]
            simp [hp] at h1
            rcases hk with hk | hk <;>
              simp [hk, hw', resolve_no_match rest parts _ h1]
        | false =>
            rw [resolve_weight_target, if_neg (by simp [hp])]
            apply ih
            simp [hp] at h1
            omega
  · intro h2
    induction pats with
    | nil => simp at h2
    | cons e rest ih =>
        obtain ⟨pat, attrs⟩ := e
        rw [List.countP_cons] at h2
        cases hp : pat (joinDot parts.dropLast) with
        | true =>
            rw [resolve_weight_target, if_pos (by simp [hp])]
            simp [hp, Nat.succ_le_iff, List.countP_pos_iff] at h2
            have herr := resolve_weight_none_error rest parts (m.setWeight none)
              (by rw [Module.kind_setWeight]; exact hk)
              (Module.weight_setWeight m none) h2
            rcases hk with hk | hk <;> simp [hk, hw', herr]
        | false =>
            rw [resolve_weight_target, if_neg (by simp [hp])]
            apply ih
            simp [hp] at h2
            omega

/-- C1 counterexample: with two identical patterns matching path `a`,
the loop errors on the second match, whereas with only the first
pattern it succeeds — so a pattern after the first match does have an
effect on the module, refuting the claim as stated. -/
theorem c1_first_match_only_refuted :
    resolve_weight_target [patA, patA] ["a", "encoded_exponent"] linEx =
      .error "AttributeError" ∧
    resolve_weight_target [patA] ["a", "encoded_exponent"] linEx =
      .ok (linEx.setWeight none) :=
  ⟨rfl, rfl⟩

/-- C1 witness: with a single matching pattern the loop detaches the
weight, as the amended claim states. -/
theorem c1_pattern_loop_all_matches_witness :
    resolve_weight_target [patA] ["a", "encoded_exponent"] linEx =
      .ok (linEx.setWeight none) :=
  (c1_pattern_loop_all_matches [patA] ["a", "encoded_exponent"] linEx
    (Or.inl rfl) rfl).1 (by decide)

end DF11

namespace DF11

theorem finish_split_ok_elim {call : KernelCall} {p2 : Pool}
    {res : Except String Module} {r : KernelCall × Module × Pool}
    (h : finish_split call p2 res = .ok r) :
    res = .ok r.2.1 ∧ r.1 = call ∧ r.2.2 = p2 := by
  cases res with
  | error e => simp [finish_split] at h
  | ok m2 =>
      simp [finish_split] at h
      rw [← h]
      exact ⟨rfl, rfl, rfl⟩

theorem setWeightTensorE_native {m : Module} {t : Tensor} (v : View)
    (hw : m.weight = some (.native t)) :
    setWeightTensorE m v = .error "TypeError" := by
  rw [setWeightTensorE, hw]

theorem setWeightTensorE_ok {m m2 : Module} {v : View}
    (h : setWeightTensorE m v = .ok m2) :
    m2 = m.setWeight (some (.view v)) := by
  rw [setWeightTensorE] at h
  split at h
  · cases h
  · injection h with h1
    exact h1.symm

/-- C9 (amended): the decode forward-pre-hook is registered
unconditionally when the `encoded_exponent` leaf is attached, before and
independently of the pattern loop: when no pattern matches, the module
still gains one hook while its native weight is untouched. But such a
module does not have its weight replaced on forward passes: when the
hook does succeed on a Linear module the weight becomes the freshly
decoded buffer view passed to the kernel, while a Linear module whose
native weight is still a registered parameter makes the hook raise
(`TypeError` from `__setattr__`) rather than return, so its weight is
never replaced. -/
theorem c9_hook_unconditional :
    (∀ (tpb : Nat) (pats : List PatEntry) (parts : List String) (v : Tensor)
        (m : Module),
        parts.getLastD "" = "encoded_exponent" →
        (∀ e ∈ pats, e.1 (joinDot parts.dropLast) = false) →
        attach_leaf tpb pats parts v m =
          .ok ((m.registerBuffer "encoded_exponent" v).addHook) ∧
        ((m.registerBuffer "encoded_exponent" v).addHook).weight = m.weight ∧
        ((m.registerBuffer "encoded_exponent" v).addHook).hooks = m.hooks + 1) ∧
    (∀ (tpb bpt : Nat) (m : Module) (pool : Pool)
        (r : KernelCall × Module × Pool),
        m.kind = .linear →
        decode_hook tpb bpt m pool = .ok r →
        r.2.1 = m.setWeight (some (.view r.1.out_view))) ∧
    (∀ (tpb bpt : Nat) (m : Module) (pool : Pool) (t : Tensor)
        (r : KernelCall × Module × Pool),
        m.kind = .linear →
        m.weight = some (.native t) →
        decode_hook tpb bpt m pool ≠ .ok r) := by
  refine ⟨?_, ?_, ?_⟩
  · intro tpb pats parts v m hleaf hnm
    have hleaf2 : parts.getLast?.getD "" = "encoded_exponent" := by
      simpa [List.getLastD_eq_getLast?] using hleaf
    refine ⟨?_, by cases m <;> rfl, by cases m <;> rfl⟩
    have hres := resolve_no_match pats parts
      ((m.registerBuffer "encoded_exponent" v).addHook) hnm
    simp [attach_leaf, hleaf, hleaf2, hres]
  · intro tpb bpt m pool r hk h
    rw [decode_hook] at h
    repeat' split at h
    all_goals try (dsimp only at h)
    all_goals try (rw [setWeightTensorE_ok (finish_split_ok_elim h).1,
      (finish_split_ok_elim h).2.1])
    all_goals simp_all
  · intro tpb bpt m pool t r hk hw h
    rw [decode_hook] at h
    repeat' split at h
    all_goals try (dsimp only at h)
    all_goals try (rw [setWeightTensorE_native _ hw] at h
                   exact absurd (finish_split_ok_elim h).1 (by simp))
    all_goals simp_all

end DF11

namespace DF11

/-- C9 witness: a Linear module matching no pattern keeps its native
weight yet gains the decode hook. -/
theorem c9_hook_unconditional_witness :
    attach_leaf 64 [(fun s => s == "nomatch", [])]
      ["layer", "encoded_exponent"] vQuad linEx =
      .ok ((linEx.registerBuffer "encoded_exponent" vQuad).addHook) :=
  (c9_hook_unconditional.1 64 [(fun s => s == "nomatch", [])]
    ["layer", "encoded_exponent"] vQuad linEx rfl (by decide)).1

/-- C9 counterexample: a fully-equipped Linear module whose path matches
no pattern keeps its registered native weight and gains the hook at
rewrite time, yet the hook invocation (the forward pass) raises
`TypeError` instead of replacing the weight with the decoded tensor,
refuting the claimed every-forward-pass replacement. -/
theorem c9_weight_replacement_refuted :
    attach_leaf 64 [(fun s => s == "nomatch", [])]
      ["layer", "encoded_exponent"] eeEx preHookEx = .ok hookEx ∧
    hookEx.weight = some (.native wEx) ∧
    hookEx.hooks = 1 ∧
    decode_hook 64 4 hookEx ⟨[], 0⟩ = .error "TypeError" :=
  ⟨rfl, rfl, rfl, rfl⟩

end DF11
